import Mathlib

/-!
Verification of `basicsr/models/video_base_model.py` (class `VideoBaseModel`).

The Python file is glue code around a deep-learning framework; the embedding
below models its control flow and data manipulation faithfully:

* machine floats (torch float32 metric scores) are modelled as exact
  rationals `ℚ`;
* Python exceptions are modelled by the `PyErr` sum type and `Except`;
* `dict`s (the per-folder metric tables, the metric configuration) are
  modelled as association lists that preserve insertion order, as Python
  dicts do;
* external collaborators (the inference engine, the metric functions,
  `tensor2img`, `mmcv.imwrite`, the logger, the distributed backend) are
  out of scope per the design: metric functions are an explicit function
  parameter, written image files are collected as a list of paths, and the
  cross-worker `dist.reduce`/`dist.barrier` pair is not modelled — the
  embedding gives the local semantics of one worker of the group.
-/

namespace VideoSR

/-- Python exception kinds raised (implicitly or explicitly) by the code. -/
inductive PyErr where
  | attributeError
  | keyError
  | valueError
  | indexError
  | notImplementedError
  | zeroDivisionError
  deriving DecidableEq, Repr

/-! ### Python / `os.path` string primitives -/

/-- `str.split(sep)` for a one-character separator, on explicit char lists:
keeps empty pieces, always returns at least one piece. -/
def pySplitList (sep : Char) : List Char → List (List Char)
  | [] => [[]]
  | c :: rest =>
    match pySplitList sep rest with
    | h :: t => if c = sep then [] :: h :: t else (c :: h) :: t
    | [] => [[]]

/-- `lq_path.split('/')` / `s.split('.')` as used in the source. -/
def pySplit (s : String) (sep : Char) : List String :=
  (pySplitList sep s.data).map String.mk

/-- Index of the last occurrence of `c` in the list, if any
(models `str.rfind`). -/
def lastIdxOf : List Char → Char → Option Nat
  | [], _ => none
  | x :: rest, c =>
    match lastIdxOf rest c with
    | some i => some (i + 1)
    | none => if x = c then some 0 else none

/-- `os.path.basename`: everything after the last `'/'`. -/
def ospBasename (p : String) : String :=
  match lastIdxOf p.data '/' with
  | some i => String.mk (p.data.drop (i + 1))
  | none => p

/-- The stem part of `os.path.splitext` (`genericpath._splitext` with posix
separators): cut at the last dot of the final component, unless that final
component consists only of leading dots up to there. -/
def splitextStem (p : String) : String :=
  let l := p.data
  let sep : Int := (lastIdxOf l '/').elim (-1) (fun i => (i : Int))
  let dot : Int := (lastIdxOf l '.').elim (-1) (fun i => (i : Int))
  if sep < dot then
    let seg := (l.drop (sep + 1).toNat).take (dot - sep - 1).toNat
    if seg.any (fun c => c ≠ '.') then String.mk (l.take dot.toNat) else p
  else p

/-- ASCII lowering of one character (models `str.lower` on the ASCII dataset
names the code compares against `'vimeo'`). -/
def charLower (c : Char) : Char :=
  if 'A' ≤ c ∧ c ≤ 'Z' then Char.ofNat (c.toNat + 32) else c

/-- `s.lower()` on ASCII strings. -/
def strLower (s : String) : String := String.mk (s.data.map charLower)

/-- Python `sub in s` substring test. -/
def containsSubstring (s sub : String) : Bool :=
  s.data.tails.any (fun t => sub.data.isPrefixOf t)

/-- Python negative indexing `l[-k]` (defined only for `1 ≤ k ≤ len`). -/
def negGet (l : List String) (k : Nat) : Option String :=
  if 1 ≤ k ∧ k ≤ l.length then l.get? (l.length - k) else none

/-- Digits of a decimal literal, or `none` when empty / non-digit
(helper for `int(...)`). -/
def digitsToNat : List Char → Option Nat
  | [] => none
  | l => go l 0
where
  go : List Char → Nat → Option Nat
    | [], acc => some acc
    | c :: rest, acc =>
      if c.isDigit then go rest (acc * 10 + (c.toNat - 48)) else none

/-- Python `int(s)` on canonical decimal strings (optional sign);
`none` models the `ValueError` raised on malformed input. -/
def parseInt (s : String) : Option Int :=
  match s.data with
  | '-' :: rest => (digitsToNat rest).map (fun n => -(n : Int))
  | '+' :: rest => (digitsToNat rest).map (fun n => (n : Int))
  | l => (digitsToNat l).map (fun n => (n : Int))

/-- One step of `posixpath.join`: an absolute component resets the result. -/
def ospJoinStep (acc b : String) : String :=
  if b.data.head? = some '/' then b
  else if acc = "" ∨ acc.data.getLast? = some '/' then acc ++ b
  else acc ++ "/" ++ b

/-- `os.path.join(a, b, c, d)` with posix separators. -/
def ospJoin4 (a b c d : String) : String :=
  ospJoinStep (ospJoinStep (ospJoinStep a b) c) d

/-! ### Python `range` (the round-robin shard) -/

/-- Fuel-driven unfolding of Python `range(start, stop, step)` for a positive
step; `fuel ≥ stop` is enough fuel because `start` grows by at least one per
emitted element. -/
def pyRangeAux : Nat → Nat → Nat → Nat → List Nat
  | 0, _, _, _ => []
  | fuel + 1, start, stop, step =>
    if start < stop ∧ 0 < step then start :: pyRangeAux fuel (start + step) stop step
    else []

/-- `range(start, stop, step)` — the index list
`for idx in range(rank, len(dataset), world_size)` iterates. -/
def pyRange (start stop step : Nat) : List Nat :=
  pyRangeAux stop start stop step

/-! ### Data model -/

/-- One dataset item, as accessed by `dist_validation`:
`val_data['gt']` may be absent (`hasGt`), `val_data['folder']`,
`val_data['idx']` (the `"frame_idx/max_idx"` string) and
`val_data['lq_path']`.  The tensors themselves (`lq`, `gt`) are opaque to the
control flow and are absorbed into the abstract metric function. -/
structure Item where
  hasGt : Bool
  folder : String
  idx : String
  lq_path : String
  deriving DecidableEq, Repr

instance : Inhabited Item := ⟨⟨true, "", "", ""⟩⟩

/-- The dataset collaborator: `dataset.opt['name']` and the item list.
`dataset.data_info['folder']` is the per-item folder list
`items.map Item.folder`, and `len(dataset) = items.length`. -/
structure Dataset where
  name : String
  items : List Item
  deriving DecidableEq, Repr

/-- Extra parameters of one configured metric: the dict
`{'type': ..., other kwargs...}`, as an insertion-ordered association list. -/
abbrev MetricOpt := List (String × String)

/-- `self.opt['val']['metrics']`: ordered mapping metric name → options. -/
abbrev MetricsConfig := List (String × MetricOpt)

/-- One folder's metric table: a `(num_frame × len(metrics))` tensor of
float32 scores, modelled as a list of rows of exact rationals. -/
abbrev Table := List (List ℚ)

/-- `self.metric_results`: dict folder → table, insertion-ordered. -/
abbrev MetricRes := List (String × Table)

/-- The slice of the model object's state that `dist_validation` reads and
writes: the lazily created `metric_results` attribute (`none` models the
attribute not existing) and the relevant `self.opt` entries. -/
structure ModelState where
  metricResults : Option MetricRes
  valMetrics : Option MetricsConfig
  is_train : Bool
  suffix : String
  visualization : String
  expName : String
  deriving DecidableEq, Repr

/-- The metrics collaborator (`basicsr.metrics`): metric kind name and the
remaining keyword parameters, applied to the images of one item.  The output
and ground-truth images are deterministic functions of the item through the
inference engine, so the item itself stands for the pair. -/
abbrev MetricFn := String → MetricOpt → Item → ℚ

/-! ### Association-list dict operations -/

/-- First-match lookup in an insertion-ordered dict. -/
def lookupA : List (String × α) → String → Option α
  | [], _ => none
  | (k, v) :: rest, key => if k = key then some v else lookupA rest key

/-- Replace the value stored under `key` (no-op when absent). -/
def setAssoc : List (String × α) → String → α → List (String × α)
  | [], _, _ => []
  | (k, v) :: rest, key, nv =>
    if k = key then (k, nv) :: rest else (k, v) :: setAssoc rest key nv

/-- `d.pop(key)`: the removed value and the remaining dict, or `none`
(the `KeyError` case). -/
def popKey : List (String × α) → String → Option (α × List (String × α))
  | [], _ => none
  | (k, v) :: rest, key =>
    if k = key then some (v, rest)
    else (popKey rest key).map (fun p => (p.1, (k, v) :: p.2))

/-- `collections.Counter` over the folder list: counts in first-occurrence
order (the order `metric_results` is keyed in). -/
def folderCounts (l : List String) : List (String × Nat) :=
  l.foldl bump []
where
  bump (acc : List (String × Nat)) (f : String) : List (String × Nat) :=
    match lookupA acc f with
    | some n => setAssoc acc f (n + 1)
    | none => acc ++ [(f, 1)]

/-! ### Tables -/

/-- The lazy initialization of `self.metric_results`:
`torch.zeros(num_frame, len(metrics))` per distinct folder. -/
def initTables (ds : Dataset) (numMetrics : Nat) : MetricRes :=
  (folderCounts (ds.items.map Item.folder)).map
    (fun p => (p.1, List.replicate p.2 (List.replicate numMetrics (0 : ℚ))))

/-- The reset step `tensor.zero_()` applied to every folder's table:
shapes are kept, every entry becomes `0`. -/
def zeroTables (mr : MetricRes) : MetricRes :=
  mr.map (fun p => (p.1, p.2.map (fun row => row.map (fun _ => (0 : ℚ)))))

/-- torch tensor row indexing with a possibly negative Python index. -/
def effRow (i : Int) (n : Nat) : Option Nat :=
  if 0 ≤ i ∧ i < (n : Int) then some i.toNat
  else if -(n : Int) ≤ i ∧ i < 0 then some (i + n).toNat
  else none

/-- `self.metric_results[folder][fi, midx] += rlt`: folder lookup
(`KeyError` when absent), row resolution and column bound check
(`IndexError` when out of range), then the in-place addition. -/
def updateTable (mr : MetricRes) (folder : String) (fi : Int) (midx : Nat)
    (rlt : ℚ) : Except PyErr MetricRes :=
  match lookupA mr folder with
  | none => .error .keyError
  | some t =>
    match effRow fi t.length with
    | none => .error .indexError
    | some r =>
      let row := t.getD r []
      if midx < row.length then
        .ok (setAssoc mr folder (t.set r (row.set midx (row.getD midx 0 + rlt))))
      else .error .indexError

/-! ### `dist_validation` — per-item steps -/

/-- The base filename of the saved image:
when `'vimeo' in dataset_name.lower()`, the join
`f'{split_rlt[-3]}_{split_rlt[-2]}_{split_rlt[-1].split(".")[0]}'`
over `lq_path.split('/')` (an `IndexError` when the path has fewer than
three components); otherwise `osp.splitext(osp.basename(lq_path))[0]`. -/
def imgName (dataset_name lq_path : String) : Except PyErr String :=
  if containsSubstring (strLower dataset_name) "vimeo" then
    let split_rlt := pySplit lq_path '/'
    match negGet split_rlt 3, negGet split_rlt 2, negGet split_rlt 1 with
    | some a, some b, some c =>
      .ok (a ++ "_" ++ b ++ "_" ++ (pySplit c '.').headD "")
    | _, _, _ => .error .indexError
  else .ok (splitextStem (ospBasename lq_path))

/-- The full save path: `osp.join(visualization, dataset_name, folder,
f'{img_name}_{suffix}.png')`, with the experiment name `self.opt['name']`
standing in when the configured suffix is falsy. -/
def savePath (visualization dataset_name folder base suffix expName : String) :
    String :=
  if suffix ≠ "" then
    ospJoin4 visualization dataset_name folder (base ++ "_" ++ suffix ++ ".png")
  else
    ospJoin4 visualization dataset_name folder (base ++ "_" ++ expName ++ ".png")

/-- The loop `for metric_idx, opt_ in enumerate(opt_metric.values())`:
pop `'type'` from the (deep-copied) options, evaluate the metric, add the
scalar into `table[folder][int(frame_idx), metric_idx]`.  `midx` is the
running `metric_idx`.  `deepcopy` means the pop acts on a local copy only:
the caller's configuration list is untouched. -/
def metricLoop (f : MetricFn) (folder frameStr : String) (item : Item) :
    Nat → List (String × MetricOpt) → MetricRes → Except PyErr MetricRes
  | _, [], mr => .ok mr
  | midx, (_, opt) :: rest, mr =>
    match popKey opt "type" with
    | none => .error .keyError
    | some (ty, kwargs) =>
      let rlt := f ty kwargs item
      match parseInt frameStr with
      | none => .error .valueError
      | some fi =>
        match updateTable mr folder fi midx rlt with
        | .error e => .error e
        | .ok mr' => metricLoop f folder frameStr item (midx + 1) rest mr'

/-- The `if with_metrics:` block for one item. -/
def calcMetrics (f : MetricFn) (cfg : MetricsConfig) (folder frameStr : String)
    (item : Item) (mr : MetricRes) : Except PyErr MetricRes :=
  metricLoop f folder frameStr item 0 cfg mr

/-- The `if save_img:` block for one item: raises `NotImplementedError`
during training (before any write), otherwise computes the save path (the
vimeo base-name computation may raise `IndexError`) and writes the image
there (`mmcv.imwrite`); the returned path records the write. -/
def saveStep (dataset_name : String) (is_train : Bool)
    (suffix visualization expName : String) (save_img : Bool) (item : Item) :
    Except PyErr (Option String) :=
  if save_img then
    if is_train then .error .notImplementedError
    else
      match imgName dataset_name item.lq_path with
      | .error e => .error e
      | .ok base =>
        .ok (some (savePath visualization dataset_name item.folder base
          suffix expName))
  else .ok none

/-- The metric block followed by the rank-0 progress-bar update (whose text
evaluates `int(frame_idx)`, so an unparsable index raises `ValueError`
there even without metrics). -/
def metricStep (f : MetricFn) (cfg : MetricsConfig) (with_metrics : Bool)
    (rank : Nat) (frame_idx : String) (item : Item) (mr : MetricRes) :
    Except PyErr MetricRes :=
  match (if with_metrics then calcMetrics f cfg item.folder frame_idx item mr
         else .ok mr) with
  | .error e => .error e
  | .ok mr' =>
    if rank = 0 then
      match parseInt frame_idx with
      | some _ => .ok mr'
      | none => .error .valueError
    else .ok mr'

/-- One iteration of the main loop, for the item at one shard index.
Returns the path of the image written by this iteration (if any — a write
that happened before a later error persists) and the updated table or the
exception:

* `val_data['gt'].unsqueeze_(0)` raises `KeyError` when the item has no
  ground truth;
* `frame_idx, max_idx = val_data['idx'].split('/')` raises `ValueError`
  unless the split has exactly two parts. -/
def processItem (f : MetricFn) (dataset_name : String) (is_train : Bool)
    (suffix visualization expName : String) (cfg : MetricsConfig)
    (with_metrics save_img : Bool) (rank : Nat) (item : Item)
    (mr : MetricRes) : Option String × Except PyErr MetricRes :=
  if item.hasGt = false then (none, .error .keyError)
  else
    match pySplit item.idx '/' with
    | [frame_idx, _max_idx] =>
      match saveStep dataset_name is_train suffix visualization expName
          save_img item with
      | .error e => (none, .error e)
      | .ok p => (p, metricStep f cfg with_metrics rank frame_idx item mr)
    | _ => (none, .error .valueError)

/-- The main loop over the shard's indices, threading the table and
collecting written image paths. -/
def runItems (f : MetricFn) (ds : Dataset) (is_train : Bool)
    (suffix visualization expName : String) (cfg : MetricsConfig)
    (with_metrics save_img : Bool) (rank : Nat) :
    List Nat → MetricRes → List String → List String × Except PyErr MetricRes
  | [], mr, saved => (saved, .ok mr)
  | i :: rest, mr, saved =>
    let item := ds.items.getD i default
    match processItem f ds.name is_train suffix visualization expName cfg
        with_metrics save_img rank item mr with
    | (p, .error e) => (saved ++ p.toList, .error e)
    | (p, .ok mr') =>
      runItems f ds is_train suffix visualization expName cfg with_metrics
        save_img rank rest mr' (saved ++ p.toList)

/-! ### `_log_validation_metric_values` -/

/-- `torch.mean(tensor, dim=0)` of a folder's `(num_frame × len(metrics))`
table.  The tables this is applied to are rectangular and nonempty
(`Counter` counts are positive); the empty-table value (NaN in torch) is
outside the verified domain. -/
def colMeans (t : Table) : List ℚ :=
  match t with
  | [] => []
  | r0 :: _ =>
    (List.range r0.length).map
      (fun j => ((t.map (fun row => row.getD j 0)).sum) / (t.length : ℚ))

/-- One folder's contribution to `total_avg_results`: positionally add the
folder-average vector into the running totals
(`total_avg_results[metric] += metric_results_avg[folder][idx].item()`);
a vector shorter than the metric list is the torch `IndexError` case. -/
def addInto : List (String × ℚ) → List ℚ → Except PyErr (List (String × ℚ))
  | [], _ => .ok []
  | (m, x) :: rest, v =>
    match v with
    | [] => .error .indexError
    | y :: vrest =>
      match addInto rest vrest with
      | .error e => .error e
      | .ok r => .ok ((m, x + y) :: r)

/-- `_log_validation_metric_values` (rank 0 only): per-folder averages over
the frame dimension, then the global per-metric averages over folders;
the final division raises `ZeroDivisionError` when there are metrics but no
folders.  Returns `(metric_results_avg, total_avg_results)`; the log and
TensorBoard emissions are formatting-only side effects over these values. -/
def logValidationMetricValues (cfg : MetricsConfig) (mr : MetricRes) :
    Except PyErr (List (String × List ℚ) × List (String × ℚ)) :=
  match (mr.map (fun p => (p.1, colMeans p.2))).foldlM
      (fun tot p => addInto tot p.2) (cfg.map (fun p => (p.1, (0 : ℚ)))) with
  | .error e => .error e
  | .ok tot1 =>
    match tot1.mapM (fun p =>
        if mr.length = 0 then (.error .zeroDivisionError : Except PyErr (String × ℚ))
        else .ok (p.1, p.2 / (mr.length : ℚ))) with
    | .error e => .error e
    | .ok tot2 => .ok (mr.map (fun p => (p.1, colMeans p.2)), tot2)

/-! ### `dist_validation` and `nondist_validation` -/

/-- `VideoBaseModel.dist_validation`, local semantics of the worker
`(rank, world_size)`.  Returns the image paths written and either the
exception raised or the post-call model state.  The cross-worker
`dist.reduce`/`dist.barrier` pair only merges identically shaped tables of
peer workers and cannot fail in the model; the rank-0 reporting call is
included for its error behaviour. -/
def dist_validation (s : ModelState) (ds : Dataset) (world_size rank : Nat)
    (save_img : Bool) (f : MetricFn) :
    List String × Except PyErr ModelState :=
  match (if s.valMetrics.isSome && s.metricResults.isNone
         then some (initTables ds (s.valMetrics.getD []).length)
         else s.metricResults) with
  | none => ([], .error .attributeError)
  | some mrInit =>
    match runItems f ds s.is_train s.suffix s.visualization s.expName
        (s.valMetrics.getD []) s.valMetrics.isSome save_img rank
        (pyRange rank ds.items.length world_size) (zeroTables mrInit) [] with
    | (saved, .error e) => (saved, .error e)
    | (saved, .ok mrF) =>
      if s.valMetrics.isSome && rank = 0 then
        match logValidationMetricValues (s.valMetrics.getD []) mrF with
        | .error e => (saved, .error e)
        | .ok _ => (saved, .ok { s with metricResults := some mrF })
      else (saved, .ok { s with metricResults := some mrF })

/-- `VideoBaseModel.nondist_validation`: unconditionally
`raise NotImplementedError('nondist_validation is not implemented.')`. -/
def nondist_validation (_s : ModelState) (_dataloader : Dataset)
    (_current_iter : Nat) (_tb_logger : Bool) (_save_img : Bool) :
    Except PyErr Unit :=
  .error .notImplementedError

/-! ### Derived observations used by the statements -/

/-- The shape of the results dict: folder keys with their per-row lengths. -/
def mrShape (mr : MetricRes) : List (String × List Nat) :=
  mr.map (fun p => (p.1, p.2.map List.length))

/-- One cell of a folder table (out-of-range reads default to `0`; the
theorems only use it in range). -/
def cell (t : Table) (i j : Nat) : ℚ :=
  (t.getD i []).getD j 0

/-- The scalar one configured metric contributes for one item:
`getattr(metric_module, opt_.pop('type'))(rlt_img, gt_img, **opt_)`. -/
def metricValue (f : MetricFn) (item : Item) (opt : MetricOpt) : ℚ :=
  match popKey opt "type" with
  | some (ty, kwargs) => f ty kwargs item
  | none => 0

/-- Total-function form of `addInto` under the in-range assumption. -/
def addIntoF : List (String × ℚ) → List ℚ → List (String × ℚ)
  | [], _ => []
  | (m, x) :: rest, [] => (m, x) :: rest
  | (m, x) :: rest, y :: v => (m, x + y) :: addIntoF rest v

/-- The base filename exactly as the claim words it: for a vimeo-named
dataset the underscore join of the third-to-last component, the
second-to-last component and the FILE STEM of the last component; otherwise
the bare file stem of the path.  (Spec-side definition, to be compared with
the source-side `imgName`.) -/
def claimBaseFilename (dataset_name lq_path : String) : Except PyErr String :=
  if containsSubstring (strLower dataset_name) "vimeo" then
    let parts := pySplit lq_path '/'
    match negGet parts 3, negGet parts 2, negGet parts 1 with
    | some a, some b, some c => .ok (a ++ "_" ++ b ++ "_" ++ splitextStem c)
    | _, _, _ => .error .indexError
  else .ok (splitextStem (ospBasename lq_path))

/-- The base filename as the amended claim words it: same as
`claimBaseFilename` except that in the vimeo branch the third piece is the
last path component truncated at its FIRST dot. -/
def amendedBaseFilename (dataset_name lq_path : String) : Except PyErr String :=
  if containsSubstring (strLower dataset_name) "vimeo" then
    let parts := pySplit lq_path '/'
    match negGet parts 3, negGet parts 2, negGet parts 1 with
    | some a, some b, some c =>
      .ok (a ++ "_" ++ b ++ "_" ++ String.mk (c.data.takeWhile (fun ch => ch ≠ '.')))
    | _, _, _ => .error .indexError
  else .ok (splitextStem (ospBasename lq_path))

/-! ## Lemmas about the round-robin shard -/

theorem mem_pyRangeAux {step : Nat} (hstep : 0 < step) :
    ∀ (fuel start : Nat) {stop i : Nat}, stop ≤ start + fuel →
      (i ∈ pyRangeAux fuel start stop step ↔
        start ≤ i ∧ i < stop ∧ (i - start) % step = 0) := by
  intro fuel
  induction fuel with
  | zero =>
    intro start stop i hfuel
    simp only [pyRangeAux, List.not_mem_nil, false_iff]
    rintro ⟨h1, h2, -⟩
    omega
  | succ n ih =>
    intro start stop i hfuel
    simp only [pyRangeAux]
    by_cases hlt : start < stop
    · rw [if_pos ⟨hlt, hstep⟩, List.mem_cons,
        ih (start + step) (by omega)]
      constructor
      · rintro (rfl | ⟨h1, h2, h3⟩)
        · exact ⟨le_refl _, hlt, by simp⟩
        · refine ⟨by omega, h2, ?_⟩
          have : i - start = (i - (start + step)) + step := by omega
          rw [this, Nat.add_mod_right]
          exact h3
      · rintro ⟨h1, h2, h3⟩
        rcases Nat.eq_or_lt_of_le h1 with rfl | hgt
        · exact Or.inl rfl
        · right
          have hdvd : step ∣ (i - start) := Nat.dvd_of_mod_eq_zero h3
          have hge : step ≤ i - start := Nat.le_of_dvd (by omega) hdvd
          refine ⟨by omega, h2, ?_⟩
          have : i - (start + step) = (i - start) - step := by omega
          rw [this]
          obtain ⟨c, hc⟩ := hdvd
          rw [hc]
          rcases c with _ | c
          · simp at hc; omega
          · have : step * (c + 1) - step = step * c := by ring_nf; omega
            rw [this, Nat.mul_mod_right]
    · rw [if_neg (by tauto)]
      simp only [List.not_mem_nil, false_iff]
      rintro ⟨h1, h2, -⟩
      omega

theorem mem_pyRange {start stop step i : Nat} (hstep : 0 < step) :
    i ∈ pyRange start stop step ↔
      start ≤ i ∧ i < stop ∧ (i - start) % step = 0 :=
  mem_pyRangeAux hstep stop start (by omega)

theorem pyRange_cons {start stop step : Nat} (hstep : 0 < step)
    (hlt : start < stop) :
    pyRange start stop step =
      start :: pyRangeAux (stop - 1) (start + step) stop step := by
  unfold pyRange
  obtain ⟨m, rfl⟩ : ∃ m, stop = m + 1 := ⟨stop - 1, by omega⟩
  simp only [pyRangeAux, Nat.add_sub_cancel]
  rw [if_pos ⟨hlt, hstep⟩]

/-! ## Lemmas about the dict and table primitives -/

theorem lookupA_setAssoc_self {α : Type} {l : List (String × α)} {key : String}
    {v : α} {nv : α} (h : lookupA l key = some v) :
    lookupA (setAssoc l key nv) key = some nv := by
  induction l with
  | nil => simp [lookupA] at h
  | cons p rest ih =>
    obtain ⟨k, w⟩ := p
    by_cases hk : k = key
    · subst hk
      simp [lookupA, setAssoc]
    · simp only [lookupA, setAssoc, if_neg hk] at h ⊢
      exact ih h

theorem setAssoc_lookup_self {α : Type} {l : List (String × α)} {key : String}
    {v : α} (h : lookupA l key = some v) : setAssoc l key v = l := by
  induction l with
  | nil => simp [lookupA] at h
  | cons p rest ih =>
    obtain ⟨k, w⟩ := p
    by_cases hk : k = key
    · subst hk
      simp only [lookupA, if_true, reduceIte, Option.some.injEq] at h
      simp [setAssoc, h]
    · simp only [lookupA, if_neg hk] at h
      simp [setAssoc, if_neg hk, ih h]

theorem setAssoc_setAssoc {α : Type} {l : List (String × α)} {key : String}
    (a b : α) : setAssoc (setAssoc l key a) key b = setAssoc l key b := by
  induction l with
  | nil => simp [setAssoc]
  | cons p rest ih =>
    obtain ⟨k, w⟩ := p
    by_cases hk : k = key
    · subst hk
      simp [setAssoc]
    · simp [setAssoc, if_neg hk, ih]

theorem effRow_lt {i : Int} {n r : Nat} (h : effRow i n = some r) : r < n := by
  unfold effRow at h
  split at h
  · simp only [Option.some.injEq] at h
    omega
  · split at h
    · simp only [Option.some.injEq] at h
      omega
    · simp at h

theorem getD_set_self {α : Type} {l : List α} {n : Nat} (a d : α)
    (h : n < l.length) : (l.set n a).getD n d = a := by
  rw [List.getD_eq_getElem?_getD, List.getElem?_set_self (by simpa using h)]
  rfl

theorem getD_set_ne {α : Type} {l : List α} {n m : Nat} (a d : α)
    (h : n ≠ m) : (l.set n a).getD m d = l.getD m d := by
  rw [List.getD_eq_getElem?_getD, List.getElem?_set_ne h,
    ← List.getD_eq_getElem?_getD]

theorem set_getD_of_lt {α : Type} (l : List α) (r : Nat) (d : α)
    (h : r < l.length) : l.set r (l.getD r d) = l := by
  apply List.ext_getElem?
  intro j
  by_cases hj : r = j
  · subst hj
    rw [List.getElem?_set_self (by simpa using h),
      List.getD_eq_getElem?_getD, List.getElem?_eq_getElem (by simpa using h)]
    rfl
  · exact List.getElem?_set_ne hj

theorem getD_map {α β : Type} (f : α → β) (l : List α) (n : Nat) (d : α) :
    (l.map f).getD n (f d) = f (l.getD n d) := by
  rw [List.getD_eq_getElem?_getD, List.getD_eq_getElem?_getD,
    List.getElem?_map]
  cases l[n]? <;> rfl

/-! ## Shape preservation through one validation pass -/

theorem zeroTables_eq_ofShape (mr : MetricRes) :
    zeroTables mr = (mrShape mr).map
      (fun p => (p.1, p.2.map (fun c => List.replicate c (0 : ℚ)))) := by
  unfold zeroTables mrShape
  rw [List.map_map]
  apply List.map_congr_left
  intro p _
  simp only [Function.comp_apply, Prod.mk.injEq, true_and]
  rw [List.map_map]
  apply List.map_congr_left
  intro row _
  exact List.map_const' row 0

theorem zeroTables_congr {mr₁ mr₂ : MetricRes}
    (h : mrShape mr₁ = mrShape mr₂) : zeroTables mr₁ = zeroTables mr₂ := by
  rw [zeroTables_eq_ofShape, zeroTables_eq_ofShape, h]

theorem mrShape_zeroTables (mr : MetricRes) :
    mrShape (zeroTables mr) = mrShape mr := by
  unfold zeroTables mrShape
  rw [List.map_map]
  apply List.map_congr_left
  intro p _
  simp [List.map_map, Function.comp]

theorem mrShape_setAssoc {mr : MetricRes} {key : String} {t t' : Table}
    (h : lookupA mr key = some t) (hsh : t'.map List.length = t.map List.length) :
    mrShape (setAssoc mr key t') = mrShape mr := by
  induction mr with
  | nil => simp [setAssoc, mrShape]
  | cons p rest ih =>
    obtain ⟨k, w⟩ := p
    by_cases hk : k = key
    · subst hk
      simp only [lookupA, if_true, reduceIte, Option.some.injEq] at h
      subst h
      simp [setAssoc, mrShape, hsh]
    · simp only [lookupA, if_neg hk] at h
      simp only [setAssoc, if_neg hk, mrShape, List.map_cons, List.cons.injEq,
        true_and]
      exact ih h

theorem updateTable_shape {mr mr' : MetricRes} {folder : String} {fi : Int}
    {midx : Nat} {rlt : ℚ}
    (h : updateTable mr folder fi midx rlt = .ok mr') :
    mrShape mr' = mrShape mr := by
  unfold updateTable at h
  split at h
  · exact absurd h (by simp)
  · rename_i t hl
    split at h
    · exact absurd h (by simp)
    · rename_i r he
      dsimp only [] at h
      split at h
      · simp only [Except.ok.injEq] at h
        subst h
        apply mrShape_setAssoc hl
        rw [List.map_set, List.length_set]
        have hr : r < t.length := effRow_lt he
        have : (t.getD r []).length = (t.map List.length).getD r ([] : List ℚ).length :=
          (getD_map List.length t r []).symm
        rw [this]
        exact set_getD_of_lt (t.map List.length) r _ (by simpa using hr)
      · exact absurd h (by simp)

theorem metricLoop_shape {f : MetricFn} {folder fs : String} {item : Item} :
    ∀ {opts : List (String × MetricOpt)} {midx : Nat} {mr mr' : MetricRes},
      metricLoop f folder fs item midx opts mr = .ok mr' →
      mrShape mr' = mrShape mr := by
  intro opts
  induction opts with
  | nil =>
    intro midx mr mr' h
    simp only [metricLoop, Except.ok.injEq] at h
    rw [h]
  | cons p rest ih =>
    intro midx mr mr' h
    obtain ⟨name, opt⟩ := p
    simp only [metricLoop] at h
    split at h
    · exact absurd h (by simp)
    · split at h
      · exact absurd h (by simp)
      · split at h
        · exact absurd h (by simp)
        · rename_i mr₁ hu
          rw [ih h, updateTable_shape hu]

theorem metricStep_shape {f : MetricFn} {cfg : MetricsConfig} {wm : Bool}
    {rank : Nat} {frame_idx : String} {item : Item} {mr mr' : MetricRes}
    (h : metricStep f cfg wm rank frame_idx item mr = .ok mr') :
    mrShape mr' = mrShape mr := by
  unfold metricStep at h
  split at h
  · exact absurd h (by simp)
  · rename_i mr₁ hc
    have hsh : mrShape mr₁ = mrShape mr := by
      by_cases hwm : wm
      · rw [if_pos hwm] at hc
        exact metricLoop_shape hc
      · rw [if_neg hwm] at hc
        simp only [Except.ok.injEq] at hc
        rw [hc]
    split at h
    · split at h
      · simp only [Except.ok.injEq] at h
        rw [← h]
        exact hsh
      · exact absurd h (by simp)
    · simp only [Except.ok.injEq] at h
      rw [← h]
      exact hsh

theorem processItem_shape {f : MetricFn} {dsn : String} {itr : Bool}
    {sfx vis exn : String} {cfg : MetricsConfig} {wm sv : Bool} {rank : Nat}
    {item : Item} {mr mr' : MetricRes} {p : Option String}
    (h : processItem f dsn itr sfx vis exn cfg wm sv rank item mr =
      (p, .ok mr')) : mrShape mr' = mrShape mr := by
  unfold processItem at h
  split at h
  · exact absurd h (by simp)
  · split at h
    · split at h
      · exact absurd h (by simp)
      · simp only [Prod.mk.injEq] at h
        exact metricStep_shape h.2
    · exact absurd h (by simp)

theorem updateTable_ok_eq {mr : MetricRes} {folder : String} {t : Table}
    {fi : Int} {r midx : Nat} (rlt : ℚ)
    (hl : lookupA mr folder = some t) (he : effRow fi t.length = some r)
    (hc : midx < (t.getD r []).length) :
    updateTable mr folder fi midx rlt =
      .ok (setAssoc mr folder
        (t.set r ((t.getD r []).set midx ((t.getD r []).getD midx 0 + rlt)))) := by
  unfold updateTable
  split
  · rename_i hnone
    rw [hl] at hnone
    exact absurd hnone (by simp)
  · rename_i t' hsome
    rw [hl] at hsome
    injection hsome with ht'
    subst ht'
    split
    · rename_i hnone
      rw [he] at hnone
      exact absurd hnone (by simp)
    · rename_i r' hsome'
      rw [he] at hsome'
      injection hsome' with hr'
      subst hr'
      dsimp only []
      rw [if_pos hc]

theorem metricLoop_cells {f : MetricFn} {folder fs : String} {item : Item}
    {k : Int} (hk : parseInt fs = some k) :
    ∀ (opts : List (String × MetricOpt)) (midx : Nat) (mr : MetricRes)
      (t : Table) (r : Nat),
      lookupA mr folder = some t →
      effRow k t.length = some r →
      (∀ p ∈ opts, (popKey p.2 "type").isSome) →
      midx + opts.length ≤ (t.getD r []).length →
      ∃ t', metricLoop f folder fs item midx opts mr = .ok (setAssoc mr folder t') ∧
        t'.length = t.length ∧
        (t'.getD r []).length = (t.getD r []).length ∧
        (∀ j, j < opts.length →
          cell t' r (midx + j) =
            cell t r (midx + j) + metricValue f item ((opts.getD j ("", [])).2)) ∧
        (∀ j, j < midx ∨ midx + opts.length ≤ j → cell t' r j = cell t r j) := by
  intro opts
  induction opts with
  | nil =>
    intro midx mr t r hl he _ _
    refine ⟨t, ?_, rfl, rfl, ?_, ?_⟩
    · simp only [metricLoop, setAssoc_lookup_self hl]
    · intro j hj
      exact absurd hj (by simp)
    · intro j _
      rfl
  | cons q rest ih =>
    intro midx mr t r hl he hpop hb
    obtain ⟨name, opt⟩ := q
    obtain ⟨tykw, hq⟩ := Option.isSome_iff_exists.mp (hpop (name, opt) (by simp))
    obtain ⟨ty, kwargs⟩ := tykw
    have hr : r < t.length := effRow_lt he
    have hcol : midx < (t.getD r []).length := by
      simp only [List.length_cons] at hb
      omega
    set row := t.getD r [] with hrow
    set t₁ := t.set r (row.set midx (row.getD midx 0 + f ty kwargs item)) with ht₁
    set mr₁ := setAssoc mr folder t₁ with hmr₁
    have hl₁ : lookupA mr₁ folder = some t₁ := lookupA_setAssoc_self hl
    have hlen₁ : t₁.length = t.length := by
      rw [ht₁, List.length_set]
    have hrow₁ : t₁.getD r [] = row.set midx (row.getD midx 0 + f ty kwargs item) := by
      rw [ht₁]
      exact getD_set_self _ _ hr
    have hrowlen₁ : (t₁.getD r []).length = row.length := by
      rw [hrow₁, List.length_set]
    have he₁ : effRow k t₁.length = some r := by
      rw [hlen₁]
      exact he
    have hb₁ : (midx + 1) + rest.length ≤ (t₁.getD r []).length := by
      rw [hrowlen₁]
      simp only [List.length_cons] at hb
      omega
    obtain ⟨t', hloop, hlen', hrlen', hadd', hkeep'⟩ :=
      ih (midx + 1) mr₁ t₁ r hl₁ he₁
        (fun p hp => hpop p (List.mem_cons_of_mem _ hp)) hb₁
    have hu : updateTable mr folder k midx (f ty kwargs item) = .ok mr₁ := by
      rw [updateTable_ok_eq (f ty kwargs item) hl he hcol]
    refine ⟨t', ?_, ?_, ?_, ?_, ?_⟩
    · simp only [metricLoop, hq, hk, hu, hloop, hmr₁, setAssoc_setAssoc]
    · rw [hlen', hlen₁]
    · rw [hrlen', hrowlen₁]
    · intro j hj
      rcases j with _ | j'
      · have hmid : cell t₁ r midx = cell t r midx + f ty kwargs item := by
          unfold cell
          rw [hrow₁, ← hrow, getD_set_self _ _ hcol]
        have : cell t' r (midx + 0) = cell t₁ r midx :=
          hkeep' midx (Or.inl (by omega))
        rw [Nat.add_zero] at this ⊢
        rw [this, hmid]
        simp only [List.getD_cons_zero, metricValue, hq]
      · have hj' : j' < rest.length := by
          simp only [List.length_cons] at hj
          omega
        have heq : midx + (j' + 1) = (midx + 1) + j' := by omega
        have hne : (midx + 1) + j' ≠ midx := by omega
        have hcell₁ : cell t₁ r ((midx + 1) + j') = cell t r ((midx + 1) + j') := by
          unfold cell
          rw [hrow₁, ← hrow, getD_set_ne _ _ (by omega)]
        rw [heq, hadd' j' hj', hcell₁]
        simp only [List.getD_cons_succ]
    · intro j hj
      have hne : j ≠ midx := by
        rcases hj with hj | hj
        · omega
        · simp only [List.length_cons] at hj
          omega
      have hj₁ : j < midx + 1 ∨ (midx + 1) + rest.length ≤ j := by
        rcases hj with hj | hj
        · exact Or.inl (by omega)
        · simp only [List.length_cons] at hj
          exact Or.inr (by omega)
      rw [hkeep' j hj₁]
      unfold cell
      rw [hrow₁, ← hrow, getD_set_ne _ _ (fun hmj => hne (hmj.symm))]

/-! ## Lemmas for the reporting routine -/

theorem addInto_ok : ∀ (tot : List (String × ℚ)) (v : List ℚ),
    tot.length ≤ v.length → addInto tot v = .ok (addIntoF tot v) := by
  intro tot
  induction tot with
  | nil =>
    intro v _
    simp [addInto, addIntoF]
  | cons p rest ih =>
    intro v hle
    obtain ⟨m, x⟩ := p
    rcases v with _ | ⟨y, vrest⟩
    · simp at hle
    · simp only [addInto, addIntoF]
      rw [ih vrest (by simpa using hle)]

theorem addIntoF_length : ∀ (tot : List (String × ℚ)) (v : List ℚ),
    (addIntoF tot v).length = tot.length := by
  intro tot
  induction tot with
  | nil =>
    intro v
    simp [addIntoF]
  | cons p rest ih =>
    intro v
    obtain ⟨m, x⟩ := p
    rcases v with _ | ⟨y, vrest⟩
    · simp [addIntoF]
    · simp [addIntoF, ih]

theorem addIntoF_getElem? : ∀ (tot : List (String × ℚ)) (v : List ℚ) (j : Nat),
    tot.length ≤ v.length →
    (addIntoF tot v)[j]? = tot[j]?.map (fun q => (q.1, q.2 + v.getD j 0)) := by
  intro tot
  induction tot with
  | nil =>
    intro v j _
    simp [addIntoF]
  | cons p rest ih =>
    intro v j hle
    obtain ⟨m, x⟩ := p
    rcases v with _ | ⟨y, vrest⟩
    · simp at hle
    · rcases j with _ | j'
      · simp [addIntoF]
      · simp only [addIntoF, List.getElem?_cons_succ, List.getD_cons_succ]
        exact ih vrest j' (by simpa using hle)

theorem foldlM_addInto :
    ∀ (avs : List (String × List ℚ)) (tot : List (String × ℚ)),
      (∀ p ∈ avs, tot.length ≤ p.2.length) →
      ∃ tot', avs.foldlM (fun t p => addInto t p.2) tot = .ok tot' ∧
        tot'.length = tot.length ∧
        ∀ j, tot'[j]? = tot[j]?.map
          (fun q => (q.1, q.2 + (avs.map (fun p => p.2.getD j 0)).sum)) := by
  intro avs
  induction avs with
  | nil =>
    intro tot _
    refine ⟨tot, rfl, rfl, ?_⟩
    intro j
    simp only [List.map_nil, List.sum_nil, add_zero]
    cases tot[j]? <;> rfl
  | cons v rest ih =>
    intro tot hle
    have hv : tot.length ≤ v.2.length := hle v (by simp)
    have hlen : (addIntoF tot v.2).length = tot.length := addIntoF_length tot v.2
    obtain ⟨tot', hfold, hlen', hget⟩ := ih (addIntoF tot v.2)
      (fun p hp => by rw [hlen]; exact hle p (List.mem_cons_of_mem _ hp))
    refine ⟨tot', ?_, by rw [hlen', hlen], ?_⟩
    · simp only [List.foldlM_cons, addInto_ok tot v.2 hv]
      exact hfold
    · intro j
      rw [hget j, addIntoF_getElem? tot v.2 j hv]
      simp only [List.map_cons, List.sum_cons, Option.map_map]
      cases tot[j]? with
      | none => rfl
      | some q =>
        simp only [Option.map_some', Function.comp_apply]
        rw [add_assoc]

theorem mapM_divide_ok {nf : Nat} (hnf : nf ≠ 0) :
    ∀ (l : List (String × ℚ)),
      l.mapM (fun p =>
        if nf = 0 then (.error .zeroDivisionError : Except PyErr (String × ℚ))
        else .ok (p.1, p.2 / (nf : ℚ))) =
      .ok (l.map (fun p => (p.1, p.2 / (nf : ℚ)))) := by
  intro l
  induction l with
  | nil => rfl
  | cons p rest ih =>
    rw [List.mapM_cons, ih]
    simp only [if_neg hnf]
    rfl

theorem colMeans_getD {t : Table} {C : Nat} {j : Nat} (hj : j < C)
    (hne : t ≠ []) (hrect : ∀ row ∈ t, row.length = C) :
    (colMeans t).getD j 0 =
      ((t.map (fun row => row.getD j 0)).sum) / (t.length : ℚ) := by
  rcases t with _ | ⟨r0, rest⟩
  · exact absurd rfl hne
  · have h0 : r0.length = C := hrect r0 (by simp)
    simp only [colMeans, h0]
    rw [List.getD_eq_getElem?_getD, List.getElem?_map, List.getElem?_range hj]
    rfl

theorem colMeans_eq {t : Table} {C : Nat} (hne : t ≠ [])
    (hrect : ∀ row ∈ t, row.length = C) :
    colMeans t = (List.range C).map
      (fun j => ((t.map (fun row => row.getD j 0)).sum) / (t.length : ℚ)) := by
  rcases t with _ | ⟨r0, rest⟩
  · exact absurd rfl hne
  · have h0 : r0.length = C := hrect r0 (by simp)
    simp only [colMeans, h0]

theorem colMeans_length {t : Table} {C : Nat} (hne : t ≠ [])
    (hrect : ∀ row ∈ t, row.length = C) : (colMeans t).length = C := by
  rw [colMeans_eq hne hrect, List.length_map, List.length_range]

theorem runItems_shape {f : MetricFn} {ds : Dataset} {itr : Bool}
    {sfx vis exn : String} {cfg : MetricsConfig} {wm sv : Bool} {rank : Nat} :
    ∀ {idxs : List Nat} {mr mr' : MetricRes} {saved saved' : List String},
      runItems f ds itr sfx vis exn cfg wm sv rank idxs mr saved =
        (saved', .ok mr') → mrShape mr' = mrShape mr := by
  intro idxs
  induction idxs with
  | nil =>
    intro mr mr' saved saved' h
    simp only [runItems, Prod.mk.injEq, Except.ok.injEq] at h
    rw [h.2]
  | cons i rest ih =>
    intro mr mr' saved saved' h
    simp only [runItems] at h
    rcases hp : processItem f ds.name itr sfx vis exn cfg wm sv rank
        (ds.items.getD i default) mr with ⟨q, res⟩
    rw [hp] at h
    rcases res with e | mr₁
    · exact absurd h (by simp)
    · rw [ih h, processItem_shape hp]

/-! ## Claim theorems -/

/-- C2: for every dataset length `n` and every `world_size ≥ 1`, the index
sets `range(rank, n, world_size)` that `dist_validation` iterates cover
`{0, …, n-1}` exactly once: every `i < n` lies in the shard of exactly one
rank below `world_size`, and shards of distinct ranks are disjoint. -/
theorem round_robin_shards_partition (n ws : Nat) (hws : 1 ≤ ws) :
    (∀ i, (∃ r, r < ws ∧ i ∈ pyRange r n ws) ↔ i < n) ∧
    (∀ r₁ r₂, r₁ < ws → r₂ < ws → r₁ ≠ r₂ →
      ∀ i, i ∈ pyRange r₁ n ws → i ∉ pyRange r₂ n ws) := by
  have hmod : ∀ r i, r < ws → r ≤ i → (i - r) % ws = 0 → i % ws = r := by
    intro r i hr hle hdiv
    obtain ⟨c, hc⟩ := Nat.dvd_of_mod_eq_zero hdiv
    have : i = r + ws * c := by omega
    rw [this, Nat.add_mul_mod_self_left]
    exact Nat.mod_eq_of_lt hr
  constructor
  · intro i
    constructor
    · rintro ⟨r, -, hmem⟩
      exact ((mem_pyRange hws).mp hmem).2.1
    · intro hi
      refine ⟨i % ws, Nat.mod_lt _ hws, (mem_pyRange hws).mpr
        ⟨Nat.mod_le _ _, hi, ?_⟩⟩
      have hdm := Nat.div_add_mod i ws
      have hsub : i - i % ws = ws * (i / ws) := by omega
      rw [hsub, Nat.mul_mod_right]
  · intro r₁ r₂ h₁ h₂ hne i hm₁ hm₂
    obtain ⟨hle₁, -, hd₁⟩ := (mem_pyRange hws).mp hm₁
    obtain ⟨hle₂, -, hd₂⟩ := (mem_pyRange hws).mp hm₂
    exact hne ((hmod r₁ i h₁ hle₁ hd₁).symm.trans (hmod r₂ i h₂ hle₂ hd₂))

/-- Witness for C2 at `n = 5`, `world_size = 2`: index 3 is covered by some
rank below 2. -/
theorem round_robin_shards_partition_witness :
    ∃ r, r < 2 ∧ 3 ∈ pyRange r 5 2 :=
  ((round_robin_shards_partition 5 2 (by decide)).1 3).mpr (by decide)

/-- C6: `nondist_validation` raises `NotImplementedError` on every input;
it never returns normally. -/
theorem nondist_validation_always_raises (s : ModelState) (dl : Dataset)
    (current_iter : Nat) (tb_logger save_img : Bool) :
    nondist_validation s dl current_iter tb_logger save_img =
      .error .notImplementedError := rfl

/-- C9: when the metrics configuration is `None` and the `metric_results`
attribute was never created, `dist_validation` raises `AttributeError` at
the unconditional reset loop, before any item is processed and before any
image is written. -/
theorem dist_validation_attribute_error (s : ModelState) (ds : Dataset)
    (ws rank : Nat) (save_img : Bool) (f : MetricFn)
    (hm : s.valMetrics = none) (ha : s.metricResults = none) :
    dist_validation s ds ws rank save_img f = ([], .error .attributeError) := by
  unfold dist_validation
  rw [hm, ha]
  rfl

/-- Witness for C9: a fresh model state with no metrics requested. -/
theorem dist_validation_attribute_error_witness :
    dist_validation
      { metricResults := none, valMetrics := none, is_train := false,
        suffix := "", visualization := "vis", expName := "exp" }
      ⟨"REDS", [⟨true, "clipA", "0/1", "a/b.png"⟩]⟩ 1 0 false
      (fun _ _ _ => 0) = ([], .error .attributeError) :=
  dist_validation_attribute_error _ _ _ _ _ _ rfl rfl

/-- C10: `dist_validation` never mutates the stored metrics configuration:
whenever it returns normally, the post-state's `self.opt['val']['metrics']`
is the pre-state's (the per-item `'type'` pop acts on a `deepcopy`). -/
theorem dist_validation_preserves_metrics_config (s s' : ModelState)
    (ds : Dataset) (ws rank : Nat) (save_img : Bool) (f : MetricFn)
    (saved : List String)
    (h : dist_validation s ds ws rank save_img f = (saved, .ok s')) :
    s'.valMetrics = s.valMetrics := by
  unfold dist_validation at h
  split at h
  · exact absurd h (by simp)
  · split at h
    · exact absurd h (by simp)
    · rename_i saved₁ mrF hrun
      split at h
      · split at h
        · exact absurd h (by simp)
        · simp only [Prod.mk.injEq, Except.ok.injEq] at h
          rw [← h.2]
      · simp only [Prod.mk.injEq, Except.ok.injEq] at h
        rw [← h.2]

/-- Witness for C10: a complete successful validation pass (one folder, one
metric) leaves the configuration untouched. -/
theorem dist_validation_preserves_metrics_config_witness :
    ({ metricResults := some [("clipA", [[(2 : ℚ)]])],
       valMetrics := some [("psnr", [("type", "calculate_psnr")])],
       is_train := false, suffix := "", visualization := "vis",
       expName := "exp" } : ModelState).valMetrics =
    ({ metricResults := none,
       valMetrics := some [("psnr", [("type", "calculate_psnr")])],
       is_train := false, suffix := "", visualization := "vis",
       expName := "exp" } : ModelState).valMetrics :=
  dist_validation_preserves_metrics_config _ _
    ⟨"REDS", [⟨true, "clipA", "0/1", "a/b.png"⟩]⟩ 1 0 false
    (fun _ _ _ => 2) []
    (by with_unfolding_all rfl)

/-- C5 counterexample: with `save_img = true` and the training flag set, a
worker whose round-robin shard is empty (here rank 1 of world size 2 over a
one-item dataset) raises nothing and returns normally — the
`NotImplementedError` check sits inside the per-item loop, so the claim's
unconditional "raises" is false.  (No image is written either way.) -/
theorem save_during_training_counterexample :
    ({ metricResults := none,
       valMetrics := some [("psnr", [("type", "calculate_psnr")])],
       is_train := true, suffix := "", visualization := "vis",
       expName := "exp" } : ModelState).is_train = true ∧
    dist_validation
      { metricResults := none,
        valMetrics := some [("psnr", [("type", "calculate_psnr")])],
        is_train := true, suffix := "", visualization := "vis",
        expName := "exp" }
      ⟨"REDS", [⟨true, "clipA", "0/1", "a/b.png"⟩]⟩ 2 1 true
      (fun _ _ _ => 0) =
      ([], .ok { metricResults := some [("clipA", [[0]])],
                 valMetrics := some [("psnr", [("type", "calculate_psnr")])],
                 is_train := true, suffix := "", visualization := "vis",
                 expName := "exp" }) :=
  ⟨rfl, by with_unfolding_all rfl⟩

/-- C5 (amended): if `save_img` is requested while the training flag is set
and the worker's shard is nonempty (its first item carrying a ground truth
and a well-formed `"frame_idx/max_idx"` string, so that control reaches the
save block), `dist_validation` raises `NotImplementedError` on that first
item and writes no image file; a worker with an empty shard raises nothing
and still writes no file. -/
theorem dist_validation_save_during_training (s : ModelState) (ds : Dataset)
    (ws rank : Nat) (f : MetricFn)
    (hws : 0 < ws) (hrank : rank < ds.items.length)
    (ht : s.is_train = true)
    (hinit : s.valMetrics.isSome = true ∨ s.metricResults.isSome = true)
    (hgt : (ds.items.getD rank default).hasGt = true)
    (hidx : ∃ a b, pySplit (ds.items.getD rank default).idx '/' = [a, b]) :
    dist_validation s ds ws rank true f = ([], .error .notImplementedError) := by
  obtain ⟨a, b, hab⟩ := hidx
  have hpi : ∀ mr : MetricRes, processItem f ds.name s.is_train s.suffix
      s.visualization s.expName (s.valMetrics.getD []) s.valMetrics.isSome
      true rank (ds.items.getD rank default) mr =
      (none, .error .notImplementedError) := by
    intro mr
    unfold processItem saveStep
    rw [hab, hgt, ht]
    rfl
  have hmr0 : (if s.valMetrics.isSome && s.metricResults.isNone
      then some (initTables ds (s.valMetrics.getD []).length)
      else s.metricResults).isSome = true := by
    by_cases hc : (s.valMetrics.isSome && s.metricResults.isNone) = true
    · rw [if_pos hc]
      rfl
    · rw [if_neg hc]
      rcases hinit with h | h
      · cases hn : s.metricResults with
        | none => simp [h, hn] at hc
        | some mr => simp [hn]
      · exact h
  obtain ⟨mrI, hmrI⟩ := Option.isSome_iff_exists.mp hmr0
  unfold dist_validation
  rw [hmrI, pyRange_cons hws hrank]
  simp only [runItems, hpi]
  rfl

/-- Witness for the amended C5: a rank-0 worker over a one-item dataset. -/
theorem dist_validation_save_during_training_witness :
    dist_validation
      { metricResults := none,
        valMetrics := some [("psnr", [("type", "calculate_psnr")])],
        is_train := true, suffix := "", visualization := "vis",
        expName := "exp" }
      ⟨"REDS", [⟨true, "clipA", "0/1", "a/b.png"⟩]⟩ 1 0 true
      (fun _ _ _ => 0) = ([], .error .notImplementedError) :=
  dist_validation_save_during_training _ _ _ _ _
    (by decide) (by decide) rfl (Or.inl rfl) rfl ⟨"0", "1", by decide⟩

/-- C7 counterexample: a dataset item carrying no ground-truth tensor makes
`dist_validation` fail with `KeyError` at the unconditional
`val_data['gt'].unsqueeze_(0)` — the claim that such an item is still
processed without failing is false. -/
theorem missing_gt_counterexample :
    dist_validation
      { metricResults := none,
        valMetrics := some [("psnr", [("type", "calculate_psnr")])],
        is_train := false, suffix := "", visualization := "vis",
        expName := "exp" }
      ⟨"REDS", [⟨false, "clipA", "0/1", "a/b.png"⟩]⟩ 1 0 false
      (fun _ _ _ => 0) = ([], .error .keyError) := by
  with_unfolding_all rfl

/-- C7 (amended): the ground-truth tensor is required, not optional — when
the first item of a worker's shard carries no ground truth,
`dist_validation` raises `KeyError` at the gt unsqueeze and processes
nothing further. -/
theorem dist_validation_requires_gt (s : ModelState) (ds : Dataset)
    (ws rank : Nat) (save_img : Bool) (f : MetricFn)
    (hws : 0 < ws) (hrank : rank < ds.items.length)
    (hinit : s.valMetrics.isSome = true ∨ s.metricResults.isSome = true)
    (hgt : (ds.items.getD rank default).hasGt = false) :
    dist_validation s ds ws rank save_img f = ([], .error .keyError) := by
  have hpi : ∀ mr : MetricRes, processItem f ds.name s.is_train s.suffix
      s.visualization s.expName (s.valMetrics.getD []) s.valMetrics.isSome
      save_img rank (ds.items.getD rank default) mr =
      (none, .error .keyError) := by
    intro mr
    unfold processItem
    rw [hgt]
    rfl
  have hmr0 : (if s.valMetrics.isSome && s.metricResults.isNone
      then some (initTables ds (s.valMetrics.getD []).length)
      else s.metricResults).isSome = true := by
    by_cases hc : (s.valMetrics.isSome && s.metricResults.isNone) = true
    · rw [if_pos hc]
      rfl
    · rw [if_neg hc]
      rcases hinit with h | h
      · cases hn : s.metricResults with
        | none => simp [h, hn] at hc
        | some mr => simp [hn]
      · exact h
  obtain ⟨mrI, hmrI⟩ := Option.isSome_iff_exists.mp hmr0
  unfold dist_validation
  rw [hmrI, pyRange_cons hws hrank]
  simp only [runItems, hpi]
  rfl

/-! ## String lemmas for the save-path characterization -/

theorem pySplitList_ne_nil (sep : Char) : ∀ l : List Char,
    pySplitList sep l ≠ [] := by
  intro l
  induction l with
  | nil => simp [pySplitList]
  | cons c rest ih =>
    rcases hr : pySplitList sep rest with _ | ⟨h, t⟩
    · exact absurd hr ih
    · simp only [pySplitList, hr]
      split <;> simp

theorem pySplitList_headD (sep : Char) : ∀ l : List Char,
    (pySplitList sep l).headD [] = l.takeWhile (fun c => c ≠ sep) := by
  intro l
  induction l with
  | nil => rfl
  | cons c rest ih =>
    rcases hr : pySplitList sep rest with _ | ⟨h, t⟩
    · exact absurd hr (pySplitList_ne_nil sep rest)
    · simp only [pySplitList, hr]
      by_cases hc : c = sep
      · subst hc
        simp [List.takeWhile]
      · rw [hr] at ih
        simp only [List.headD_cons] at ih
        simp [if_neg hc, List.takeWhile, hc, ih]

theorem pySplit_headD (s : String) (sep : Char) :
    (pySplit s sep).headD "" = String.mk (s.data.takeWhile (fun c => c ≠ sep)) := by
  unfold pySplit
  rcases hr : pySplitList sep s.data with _ | ⟨h, t⟩
  · exact absurd hr (pySplitList_ne_nil sep s.data)
  · have := pySplitList_headD sep s.data
    rw [hr] at this
    simp only [List.headD_cons] at this
    simp [this]

theorem imgName_eq_amended : ∀ dn lq : String,
    imgName dn lq = amendedBaseFilename dn lq := by
  intro dn lq
  unfold imgName amendedBaseFilename
  dsimp only []
  by_cases hv : containsSubstring (strLower dn) "vimeo"
  · rw [if_pos hv, if_pos hv]
    rcases h3 : negGet (pySplit lq '/') 3 with _ | a
    all_goals rcases h2 : negGet (pySplit lq '/') 2 with _ | b
    all_goals rcases h1 : negGet (pySplit lq '/') 1 with _ | c
    all_goals try rfl
    dsimp only []
    rw [pySplit_headD c '.']
  · rw [if_neg hv, if_neg hv]

/-- Witness for the amended C7. -/
theorem dist_validation_requires_gt_witness :
    dist_validation
      { metricResults := some [("clipB", [[(0 : ℚ)]])],
        valMetrics := none, is_train := false, suffix := "",
        visualization := "vis", expName := "exp" }
      ⟨"REDS", [⟨true, "clipB", "0/2", "x.png"⟩, ⟨false, "clipB", "1/2", "y.png"⟩]⟩
      2 1 false (fun _ _ _ => 0) = ([], .error .keyError) :=
  dist_validation_requires_gt _ _ _ _ _ _
    (by decide) (by decide) (Or.inr rfl) rfl

theorem str_ne_empty_of_data_ne {s : String} (h : s.data ≠ []) : s ≠ "" := by
  intro he
  subst he
  exact h rfl

theorem append_data_ne {x y : String} (hy : y.data ≠ []) :
    (x ++ y).data ≠ [] := by
  rw [String.data_append]
  simp [hy]

theorem append_getLast? (x y : String) (hy : y.data ≠ []) :
    (x ++ y).data.getLast? = y.data.getLast? := by
  rw [String.data_append, List.getLast?_append]
  obtain ⟨c, hc⟩ := Option.isSome_iff_exists.mp (List.getLast?_isSome.mpr hy)
  rw [hc]
  rfl

theorem ospJoinStep_eq {acc b : String} (hb : b.data.head? ≠ some '/')
    (hacc : acc ≠ "") (hlast : acc.data.getLast? ≠ some '/') :
    ospJoinStep acc b = acc ++ "/" ++ b := by
  unfold ospJoinStep
  rw [if_neg hb, if_neg]
  intro hor
  rcases hor with h | h
  · exact hacc h
  · exact hlast h

theorem ospJoin4_eq (a b c d : String)
    (ha : a ≠ "") (hal : a.data.getLast? ≠ some '/')
    (hbne : b.data ≠ []) (hbh : b.data.head? ≠ some '/')
    (hbl : b.data.getLast? ≠ some '/')
    (hcne : c.data ≠ []) (hch : c.data.head? ≠ some '/')
    (hcl : c.data.getLast? ≠ some '/')
    (hdh : d.data.head? ≠ some '/') :
    ospJoin4 a b c d = a ++ "/" ++ b ++ "/" ++ c ++ "/" ++ d := by
  unfold ospJoin4
  rw [ospJoinStep_eq hbh ha hal]
  have h1ne : (a ++ "/" ++ b) ≠ "" := str_ne_empty_of_data_ne (append_data_ne hbne)
  have h1l : (a ++ "/" ++ b).data.getLast? ≠ some '/' := by
    rw [append_getLast? _ _ hbne]
    exact hbl
  rw [ospJoinStep_eq hch h1ne h1l]
  have h2ne : (a ++ "/" ++ b ++ "/" ++ c) ≠ "" :=
    str_ne_empty_of_data_ne (append_data_ne hcne)
  have h2l : (a ++ "/" ++ b ++ "/" ++ c).data.getLast? ≠ some '/' := by
    rw [append_getLast? _ _ hcne]
    exact hcl
  rw [ospJoinStep_eq hdh h2ne h2l]

/-- C8 counterexample: for a vimeo-identified dataset the code truncates the
last path component at its FIRST dot (`split_rlt[-1].split(".")[0]`),
whereas the claim's "file stem" (what `os.path.splitext` keeps) cuts at the
LAST dot; the two differ on any filename with an inner dot. -/
theorem base_filename_stem_counterexample :
    imgName "vimeo90k" "00001/0266/im4.x.png" = .ok "00001_0266_im4" ∧
    claimBaseFilename "vimeo90k" "00001/0266/im4.x.png" =
      .ok "00001_0266_im4.x" ∧
    ("00001_0266_im4" : String) ≠ "00001_0266_im4.x" :=
  ⟨rfl, rfl, by decide⟩

/-- C8 (amended): the base filename equals the amended description (vimeo
case-insensitive substring test selects the three-part underscore join of
the third-to-last component, the second-to-last component and the last
component truncated at its FIRST dot; otherwise the bare file stem of the
path), and the final save path is
`visualization/dataset_name/folder/base_suffix.png` with the experiment
name standing in for an unset suffix — provided the joined components are
nonempty and free of leading/trailing separators. -/
theorem save_path_characterization (vis dn folder base sfx exn : String)
    (hvis : vis ≠ "") (hvisl : vis.data.getLast? ≠ some '/')
    (hdn : dn.data ≠ []) (hdnh : dn.data.head? ≠ some '/')
    (hdnl : dn.data.getLast? ≠ some '/')
    (hf : folder.data ≠ []) (hfh : folder.data.head? ≠ some '/')
    (hfl : folder.data.getLast? ≠ some '/')
    (hbh : base.data.head? ≠ some '/') :
    savePath vis dn folder base sfx exn =
      vis ++ "/" ++ dn ++ "/" ++ folder ++ "/" ++
        (base ++ "_" ++ (if sfx ≠ "" then sfx else exn) ++ ".png") ∧
    ∀ dn' lq : String, imgName dn' lq = amendedBaseFilename dn' lq := by
  constructor
  · have hdh : ∀ X : String,
        (base ++ "_" ++ X ++ ".png").data.head? ≠ some '/' := by
      intro X
      rw [String.data_append, String.data_append, String.data_append,
        List.head?_append, List.head?_append]
      rcases hb : base.data with _ | ⟨ch, rest⟩
      · simp
      · rw [hb] at hbh
        simpa using hbh
    unfold savePath
    by_cases hs : sfx ≠ ""
    · rw [if_pos hs, if_pos hs, ospJoin4_eq vis dn folder _ hvis hvisl hdn
        hdnh hdnl hf hfh hfl (hdh sfx)]
    · rw [if_neg hs, if_neg hs, ospJoin4_eq vis dn folder _ hvis hvisl hdn
        hdnh hdnl hf hfh hfl (hdh exn)]
  · exact imgName_eq_amended

/-- Witness for the amended C8: a concrete non-vimeo save path and a
concrete vimeo base filename. -/
theorem save_path_characterization_witness :
    savePath "vis" "REDS" "clipA" "im4" "" "exp" =
      "vis" ++ "/" ++ "REDS" ++ "/" ++ "clipA" ++ "/" ++
        ("im4" ++ "_" ++ (if ("" : String) ≠ "" then "" else "exp") ++ ".png") ∧
    ∀ dn' lq : String, imgName dn' lq = amendedBaseFilename dn' lq :=
  save_path_characterization "vis" "REDS" "clipA" "im4" "" "exp"
    (by decide) (by decide) (by decide) (by decide) (by decide)
    (by decide) (by decide) (by decide) (by decide)

/-- C1: on rank 0, `_log_validation_metric_values` computes each folder's
metric vector as the mean of that folder's table over the frame dimension,
and each global per-metric scalar as the unweighted mean of the per-folder
averages — every folder contributes equally regardless of its frame count.
(The witness instantiates the clipA/clipB scenario: per-folder averages
`3/2` and `1`, global average `5/4`.) -/
theorem log_validation_averages (cfg : MetricsConfig) (mr : MetricRes)
    (hne : mr ≠ [])
    (hrect : ∀ p ∈ mr, p.2 ≠ [] ∧ ∀ row ∈ p.2, row.length = cfg.length) :
    logValidationMetricValues cfg mr = .ok
      (mr.map (fun p => (p.1, (List.range cfg.length).map (fun j =>
          ((p.2.map (fun row => row.getD j 0)).sum) / (p.2.length : ℚ)))),
       (List.range cfg.length).map (fun j =>
          ((cfg.getD j ("", [])).1,
           ((mr.map (fun p =>
              ((p.2.map (fun row => row.getD j 0)).sum) / (p.2.length : ℚ))).sum)
             / (mr.length : ℚ)))) := by
  have hnlen : mr.length ≠ 0 := fun h => hne (List.length_eq_zero.mp h)
  have havgs : mr.map (fun p => (p.1, colMeans p.2)) =
      mr.map (fun p => (p.1, (List.range cfg.length).map (fun j =>
        ((p.2.map (fun row => row.getD j 0)).sum) / (p.2.length : ℚ)))) :=
    List.map_congr_left (fun p hp => by
      rw [colMeans_eq (hrect p hp).1 (hrect p hp).2])
  have hle : ∀ p ∈ mr.map (fun p => (p.1, colMeans p.2)),
      (cfg.map (fun p => (p.1, (0 : ℚ)))).length ≤ p.2.length := by
    intro p hp
    simp only [List.mem_map] at hp
    obtain ⟨q, hq, rfl⟩ := hp
    rw [List.length_map, colMeans_length (hrect q hq).1 (hrect q hq).2]
  obtain ⟨tot1, hfold, hlen1, hget1⟩ :=
    foldlM_addInto (mr.map (fun p => (p.1, colMeans p.2)))
      (cfg.map (fun p => (p.1, (0 : ℚ)))) hle
  unfold logValidationMetricValues
  rw [hfold]
  dsimp only []
  rw [mapM_divide_ok hnlen tot1]
  dsimp only []
  refine congrArg Except.ok (Prod.ext havgs ?_)
  apply List.ext_getElem?
  intro j
  rw [List.getElem?_map, hget1 j, List.getElem?_map, List.getElem?_map]
  by_cases hj : j < cfg.length
  · rw [List.getElem?_range hj, List.getElem?_eq_getElem hj]
    simp only [Option.map_some', Option.map_map, Function.comp_apply,
      zero_add, Option.some.injEq]
    have hsum : ((mr.map (fun p => (p.1, colMeans p.2))).map
        (fun p => p.2.getD j 0)).sum =
        (mr.map (fun p =>
          ((p.2.map (fun row => row.getD j 0)).sum) / (p.2.length : ℚ))).sum := by
      rw [List.map_map]
      refine congrArg List.sum (List.map_congr_left ?_)
      intro q hq
      simp only [Function.comp_apply]
      exact colMeans_getD hj (hrect q hq).1 (hrect q hq).2
    rw [hsum]
    have hgetD : cfg.getD j ("", []) = cfg[j] := by
      rw [List.getD_eq_getElem?_getD, List.getElem?_eq_getElem hj]
      rfl
    rw [hgetD]
  · have h1 : (cfg.map (fun p => (p.1, (0 : ℚ))))[j]? = none := by
      rw [List.getElem?_eq_none]
      simpa using Nat.le_of_not_lt hj
    have h2 : (List.range cfg.length)[j]? = none := by
      rw [List.getElem?_eq_none]
      simpa using Nat.le_of_not_lt hj
    rw [List.getElem?_map] at h1
    rw [h1, h2]
    rfl

/-- Witness for C1: the end-to-end scenario of the claim — folders clipA
(2 frames) and clipB (1 frame), one metric whose per-frame scores are
`frame_idx + 1`; per-folder averages `3/2` and `1`, global average `5/4`. -/
theorem log_validation_averages_witness :
    logValidationMetricValues [("psnr", [("type", "calculate_psnr")])]
      [("clipA", [[1], [2]]), ("clipB", [[1]])] =
    .ok ([("clipA", [3/2]), ("clipB", [1])], [("psnr", 5/4)]) := by
  have h := log_validation_averages [("psnr", [("type", "calculate_psnr")])]
    [("clipA", [[1], [2]]), ("clipB", [[1]])] (by decide)
    (by
      intro p hp
      simp only [List.mem_cons, List.not_mem_nil, or_false] at hp
      rcases hp with rfl | rfl <;> exact ⟨by decide, by decide⟩)
  rw [h]
  with_unfolding_all rfl

/-- C4: for a processed item with metrics requested, each configured
metric's scalar is added into the results table at
`table[folder][frame_idx, metric_position]`: the folder is the item's
folder label, the row is the integer parsed from the first component of the
item's `"frame_idx/max_idx"` string, and the column is the metric's
position in the ordered configuration. -/
theorem metric_accumulation (f : MetricFn) (cfg : MetricsConfig)
    (item : Item) (frameStr : String) (mr : MetricRes) (t : Table) (k : Int)
    (hl : lookupA mr item.folder = some t)
    (hk : parseInt frameStr = some k)
    (h0 : 0 ≤ k) (hr : k.toNat < t.length)
    (hpop : ∀ p ∈ cfg, (popKey p.2 "type").isSome)
    (hcols : cfg.length ≤ (t.getD k.toNat []).length) :
    ∃ t', calcMetrics f cfg item.folder frameStr item mr =
        .ok (setAssoc mr item.folder t') ∧
      ∀ j, j < cfg.length →
        cell t' k.toNat j = cell t k.toNat j +
          metricValue f item ((cfg.getD j ("", [])).2) := by
  have he : effRow k t.length = some k.toNat := by
    unfold effRow
    rw [if_pos ⟨h0, by omega⟩]
  obtain ⟨t', hloop, -, -, hadd, -⟩ :=
    metricLoop_cells hk cfg 0 mr t k.toNat hl he hpop (by omega)
  refine ⟨t', hloop, fun j hj => ?_⟩
  have := hadd j hj
  rwa [Nat.zero_add] at this

/-- Witness for C4: one metric, folder `clipA`, frame string `"1"`; the
score 5 is added at row 1, column 0. -/
theorem metric_accumulation_witness :
    ∃ t', calcMetrics (fun _ _ _ => 5)
        [("psnr", [("type", "calculate_psnr")])]
        (Item.mk true "clipA" "1/2" "p.png").folder "1"
        (Item.mk true "clipA" "1/2" "p.png") [("clipA", [[1], [2]])] =
      .ok (setAssoc [("clipA", [[1], [2]])]
        (Item.mk true "clipA" "1/2" "p.png").folder t') ∧
      ∀ j, j < ([("psnr", [("type", "calculate_psnr")])] : MetricsConfig).length →
        cell t' (Int.toNat 1) j = cell [[1], [2]] (Int.toNat 1) j +
          metricValue (fun _ _ _ => 5) (Item.mk true "clipA" "1/2" "p.png")
            (([("psnr", [("type", "calculate_psnr")])] : MetricsConfig).getD
              j ("", [])).2 :=
  metric_accumulation (fun _ _ _ => 5) _ _ "1" _ [[1], [2]] 1
    rfl rfl (by decide) (by decide) (by decide) (by decide)

/-- C3: the reset step zeroes every folder's table before any item is
processed, so a second `dist_validation` call starting from the state a
successful first call produced returns exactly the first call's output —
no score from pass 1 leaks into or double-counts in pass 2. -/
theorem dist_validation_idempotent (s s' : ModelState) (ds : Dataset)
    (ws rank : Nat) (save_img : Bool) (f : MetricFn) (saved : List String)
    (h : dist_validation s ds ws rank save_img f = (saved, .ok s')) :
    dist_validation s' ds ws rank save_img f = (saved, .ok s') := by
  unfold dist_validation at h ⊢
  split at h
  · exact absurd h (by simp)
  · rename_i mrI hmrI
    split at h
    · exact absurd h (by simp)
    · rename_i saved₁ mrF hrun
      have hsh : mrShape mrF = mrShape mrI :=
        (runItems_shape hrun).trans (mrShape_zeroTables mrI)
      have hz : zeroTables mrF = zeroTables mrI := zeroTables_congr hsh
      split at h
      · rename_i hcond
        split at h
        · exact absurd h (by simp)
        · rename_i val hlog
          simp only [Prod.mk.injEq, Except.ok.injEq] at h
          obtain ⟨rfl, rfl⟩ := h
          dsimp only []
          simp only [Option.isNone_some, Bool.and_false]
          rw [if_neg Bool.false_ne_true]
          dsimp only []
          rw [hz, hrun]
          dsimp only []
          rw [if_pos hcond, hlog]
      · rename_i hcond
        simp only [Prod.mk.injEq, Except.ok.injEq] at h
        obtain ⟨rfl, rfl⟩ := h
        dsimp only []
        simp only [Option.isNone_some, Bool.and_false]
        rw [if_neg Bool.false_ne_true]
        dsimp only []
        rw [hz, hrun]
        dsimp only []
        rw [if_neg hcond]

/-- Witness for C3: a pass with no metrics configured over an empty shard
zeroes the stored table; re-running from the produced state reproduces the
same output. -/
theorem dist_validation_idempotent_witness :
    dist_validation
      { metricResults := some [("clipA", [[(0 : ℚ)]])], valMetrics := none,
        is_train := false, suffix := "", visualization := "vis",
        expName := "exp" }
      ⟨"REDS", []⟩ 1 0 false (fun _ _ _ => 0) =
      ([], .ok { metricResults := some [("clipA", [[(0 : ℚ)]])],
                 valMetrics := none, is_train := false, suffix := "",
                 visualization := "vis", expName := "exp" }) :=
  dist_validation_idempotent
    { metricResults := some [("clipA", [[(5 : ℚ)]])], valMetrics := none,
      is_train := false, suffix := "", visualization := "vis",
      expName := "exp" } _ _ _ _ _ _ _ (by with_unfolding_all rfl)

end VideoSR
